import Mathlib

/-!
Verification development for `VideoEventSequencer.ts`
(`src/js/apl-html/src/components/video/VideoEventSequencer.ts`).

The sequencer is a single-threaded cooperative task sequencer built around
three pieces of mutable state in the closure of `createVideoEventSequencer`:
`eventsQueue` (the FIFO backlog), `isProcessing` (the drain-cycle flag) and
`currentAnimationFrame` (the handle of the most recently requested animation
frame).  We embed it as a small-step transition system over an explicit
state record.  Each step of the transition system corresponds to one
uninterruptible run of JavaScript code (a synchronous entry-point call, a
`requestAnimationFrame` callback firing, or the microtask cascade that runs
when a pending handler promise settles): on the JS event loop no other code
can interleave with such a run, so modelling it as one atomic step is
faithful.

History instrumentation (the `dispatched`, `enqueued`, `resolvedExclusives`
and `log` fields, and the `nextExclusiveId` / `nextFrameId` counters) records
the externally observable interactions: handler invocations in order,
enqueue calls in order, resolutions of promises returned by
`processExclusively`, and logger output.  The counters stand for the fresh
handles produced by `requestAnimationFrame` and for the identity of each
promise returned by `processExclusively`; they are write-once bookkeeping
and do not influence the control flow of the embedded source functions.
-/

/-- The `VideoInterface` enum of the source (the closed set of command
names the sequencer can dispatch). -/
inductive VideoInterface where
  | onEvent
  | playMedia
  | controlMedia
  | play
  | pause
  | seek
  | rewind
  | previous
  | next
  | setTrack
  | setTrackPaused
  | setAudioTrack
  | setSource
  | setTrackCurrentTime
  | setTrackIndex
  | setScale
  | updateMediaState
  | applyCssShadow
  deriving DecidableEq

/-- The string value of each enum member, as in the source
(`ON_EVENT = 'onEvent'`, ...). -/
def VideoInterface.str : VideoInterface → String
  | .onEvent => "onEvent"
  | .playMedia => "playMedia"
  | .controlMedia => "controlMedia"
  | .play => "play"
  | .pause => "pause"
  | .seek => "seek"
  | .rewind => "rewind"
  | .previous => "previous"
  | .next => "next"
  | .setTrack => "setTrack"
  | .setTrackPaused => "setTrackPaused"
  | .setAudioTrack => "setAudioTrack"
  | .setSource => "setSource"
  | .setTrackCurrentTime => "setTrackCurrentTime"
  | .setTrackIndex => "setTrackIndex"
  | .setScale => "setScale"
  | .updateMediaState => "updateMediaState"
  | .applyCssShadow => "applyCssShadow"

/-- A queued entry: the `{event, callArgs}` object pushed by
`enqueueForProcessing`.  `callArgs` is an opaque payload, forwarded
unchanged; we model it as a `Nat`. -/
structure Command where
  event : VideoInterface
  callArgs : Nat
  deriving DecidableEq

/-- How a pending handler call was issued: from the drain loop
(`processLoop` calling `processNextEvent` with no callback) or from
`processExclusively` (which passes the outer `resolve` as the callback).
An exclusive call carries the identity of the promise returned by
`processExclusively` that its callback resolves. -/
inductive CallKind where
  | loop
  | exclusive (id : Nat)
  deriving DecidableEq

/-- Origin tag recorded in the dispatch history. -/
inductive Origin where
  | fromLoop
  | fromExclusive
  deriving DecidableEq

def CallKind.origin : CallKind → Origin
  | .loop => .fromLoop
  | .exclusive _ => .fromExclusive

/-- A handler call that has been dispatched (the `await
videoEventProcessor[event](callArgs)` is pending) and has not yet
settled. -/
structure InflightCall where
  cmd : Command
  kind : CallKind
  deriving DecidableEq

/-- Logger output: `logger.info` of the event name in `processEvent`, and
`logger.warn` in the `.catch` branch of `processNextEvent`. -/
inductive LogEntry where
  | info (msg : String)
  | warn (msg : String)
  deriving DecidableEq

/-- The sequencer state.  The first three fields are the source's closure
variables; `scheduledFrames` is the set (as a list) of animation-frame
callbacks currently scheduled by the host and not yet fired or cancelled;
the remaining fields are history instrumentation and fresh-handle
counters. -/
structure SeqState where
  eventsQueue : List Command
  isProcessing : Bool
  currentAnimationFrame : Option Nat
  scheduledFrames : List Nat
  nextFrameId : Nat
  inflight : List InflightCall
  nextExclusiveId : Nat
  dispatched : List (Command × Origin)
  enqueued : List Command
  resolvedExclusives : List Nat
  log : List LogEntry
  deriving DecidableEq

/-- The state right after `createVideoEventSequencer` returns:
`isProcessing = false`, `eventsQueue = []`, `currentAnimationFrame`
still undefined. -/
def initState : SeqState :=
  { eventsQueue := []
    isProcessing := false
    currentAnimationFrame := none
    scheduledFrames := []
    nextFrameId := 0
    inflight := []
    nextExclusiveId := 0
    dispatched := []
    enqueued := []
    resolvedExclusives := []
    log := [] }

/-- The synchronous prefix of `processEvent` as reached through
`processNextEvent`: `logger.info` of the event name, then the handler
method is invoked; the resulting promise is pending, so the call is added
to the in-flight set and recorded in the dispatch history. -/
def dispatchCall (s : SeqState) (c : Command) (k : CallKind) : SeqState :=
  { s with
    log := s.log ++ [LogEntry.info c.event.str]
    inflight := s.inflight ++ [{ cmd := c, kind := k }]
    dispatched := s.dispatched ++ [(c, k.origin)] }

/-- The synchronous prefix of `processLoop`: `eventsQueue.shift()`; on
`undefined` set `isProcessing = false` and return; otherwise dispatch the
shifted command via `processNextEvent` (the `await` then suspends). -/
def processLoop (s : SeqState) : SeqState :=
  match s.eventsQueue with
  | [] => { s with isProcessing := false }
  | c :: rest => dispatchCall { s with eventsQueue := rest } c CallKind.loop

/-- `ensureProcessing`: if `isProcessing` is false, set it and start
`processLoop` (fire and forget; its synchronous prefix runs now). -/
def ensureProcessing (s : SeqState) : SeqState :=
  if s.isProcessing then s
  else processLoop { s with isProcessing := true }

/-- `enqueueForProcessing`: push `{event, callArgs}` onto the queue, then
`ensureProcessing`.  The `enqueued` history records the call. -/
def enqueueForProcessing (s : SeqState) (c : Command) : SeqState :=
  ensureProcessing
    { s with
      eventsQueue := s.eventsQueue ++ [c]
      enqueued := s.enqueued ++ [c] }

/-- `cancelAnimationFrame(currentAnimationFrame)`: removes the callback
with that handle from the host's scheduled set; a no-op when the handle is
undefined or the callback already fired or was already cancelled. -/
def cancelCurrentAnimationFrame (s : SeqState) : SeqState :=
  match s.currentAnimationFrame with
  | none => s
  | some f => { s with scheduledFrames := s.scheduledFrames.filter (fun x => x ≠ f) }

/-- A scheduled animation-frame callback fires: the host removes it from
the scheduled set and runs `processLoop` (its synchronous prefix).  Not
enabled for handles that are not currently scheduled. -/
def fireAnimationFrame (s : SeqState) (fid : Nat) : SeqState :=
  if fid ∈ s.scheduledFrames then
    processLoop { s with scheduledFrames := s.scheduledFrames.filter (fun x => x ≠ fid) }
  else s

/-- A pending handler promise settles (`ok = true` for fulfilment,
`ok = false` for rejection, which also covers an unknown command name
throwing at dispatch).  The microtask cascade that follows runs
atomically:
* the `.catch` branch logs a warning naming the event on failure;
* `ensureResolve(resolve, callback)` runs: on the exclusive path the
  callback is the outer `resolve` of the promise `processExclusively`
  returned (recorded in `resolvedExclusives`); then the inner promise of
  `processNextEvent` resolves;
* the code after `await processNextEvent(...)` resumes: in `processLoop`
  this is `currentAnimationFrame = requestAnimationFrame(processLoop)`
  (a fresh handle is scheduled unconditionally); in the async executor of
  `processExclusively` there is nothing after the `await`. -/
def settleCall (s : SeqState) (i : Nat) (ok : Bool) : SeqState :=
  match s.inflight[i]? with
  | none => s
  | some call =>
    let s1 := { s with inflight := s.inflight.eraseIdx i }
    let s2 :=
      if ok then s1
      else { s1 with
             log := s1.log ++ [LogEntry.warn ("error processing " ++ call.cmd.event.str)] }
    let s3 :=
      match call.kind with
      | CallKind.exclusive eid =>
          { s2 with resolvedExclusives := s2.resolvedExclusives ++ [eid] }
      | CallKind.loop => s2
    match call.kind with
    | CallKind.loop =>
        { s3 with
          scheduledFrames := s3.scheduledFrames ++ [s3.nextFrameId]
          currentAnimationFrame := some s3.nextFrameId
          nextFrameId := s3.nextFrameId + 1 }
    | CallKind.exclusive _ => s3

/-- `processExclusively`: synchronously `eventsQueue = []`,
`cancelAnimationFrame(currentAnimationFrame)`, `isProcessing = false`;
then the promise executor runs `processNextEvent(event, callArgs,
resolve)`, whose synchronous prefix dispatches the handler call with the
outer `resolve` as completion callback.  The fresh exclusive id is the
identity of the returned promise. -/
def processExclusively (s : SeqState) (c : Command) : SeqState :=
  let s1 := cancelCurrentAnimationFrame { s with eventsQueue := [] }
  let s2 := { s1 with isProcessing := false }
  dispatchCall { s2 with nextExclusiveId := s2.nextExclusiveId + 1 } c
    (CallKind.exclusive s2.nextExclusiveId)

/-- `destroy`: `eventsQueue = []`,
`cancelAnimationFrame(currentAnimationFrame)`, `isProcessing = false`. -/
def destroy (s : SeqState) : SeqState :=
  let s1 := cancelCurrentAnimationFrame { s with eventsQueue := [] }
  { s1 with isProcessing := false }

/-- One atomic run of JavaScript: a public entry-point call, an animation
frame firing, or a pending handler call settling with the given outcome. -/
inductive Label where
  | enqueue (c : Command)
  | tick (fid : Nat)
  | settle (i : Nat) (ok : Bool)
  | exclusiveCall (c : Command)
  | destroyCall
  deriving DecidableEq

def step (s : SeqState) : Label → SeqState
  | Label.enqueue c => enqueueForProcessing s c
  | Label.tick fid => fireAnimationFrame s fid
  | Label.settle i ok => settleCall s i ok
  | Label.exclusiveCall c => processExclusively s c
  | Label.destroyCall => destroy s

def run (s : SeqState) : List Label → SeqState
  | [] => s
  | l :: ls => run (step s l) ls

/-!
Function-level models.  `processNextEvent` and `ensureResolve` also have a
per-call contract that is independent of the transition system: given the
outcome of the handler call and the behaviour of the optional completion
callback, which logging, callback and resolution actions occur.  We model
an error value as a `String`.  One invocation of the callback either
returns normally (`none`) or throws (`some e`); because the `.catch`
branch re-runs `ensureResolve` when the `.then` branch threw, the
callback can be invoked more than once, so a callback's behaviour is a
function from the invocation index to that invocation's outcome.
-/

/-- Micro-actions of `ensureResolve`, in execution order. -/
inductive ResolveAction where
  | callbackInvoked
  | resolveInvoked
  deriving DecidableEq

/-- Result of one run of `ensureResolve`: which actions ran, in order, and
the exception (if any) that escapes it. -/
structure EnsureResolveRun where
  actions : List ResolveAction
  thrown : Option String
  deriving DecidableEq

/-- `ensureResolve(resolve, callback)`:
`try { if (callback) { callback(); } } finally { resolve(); }`.
With no callback, only `resolve()` runs.  With a callback, the callback is
invoked first; whether or not it throws, the `finally` block then calls
`resolve()`; a `try`/`finally` with no `catch` re-raises the exception
after the `finally` block, so a throwing callback's exception escapes
`ensureResolve`. -/
def ensureResolve (callback : Option (Option String)) : EnsureResolveRun :=
  match callback with
  | none => { actions := [ResolveAction.resolveInvoked], thrown := none }
  | some cbThrow =>
      { actions := [ResolveAction.callbackInvoked, ResolveAction.resolveInvoked]
        thrown := cbThrow }

/-- Outcome of the settlement cascade of one `processNextEvent` call. -/
structure ProcessNextEventRun where
  /-- the `error` values passed to `logger.warn` by the `.catch` branch,
  in order (the source logs `error processing ${event}: ${error}`) -/
  warns : List String
  /-- the actions the `ensureResolve` runs performed, in execution order
  across both branches -/
  resolveActions : List ResolveAction
  /-- the promise returned by `processNextEvent` resolved -/
  promiseResolved : Bool
  /-- the promise returned by `processNextEvent` rejected (its executor is
  only ever given `resolve`, so this never happens) -/
  promiseRejected : Bool
  /-- rejection of the unobserved chain promise
  `processEvent(...).then(f).catch(g)` (an exception escaping the `.catch`
  handler `g` lands here; nothing holds a reference to this promise, so
  such a rejection is unhandled) -/
  chainRejection : Option String
  deriving DecidableEq

/-- The settlement cascade of
`processEvent(event, callArgs).then(() => ensureResolve(resolve, callback))
.catch((error) => { logger.warn(...); ensureResolve(resolve, callback); })`.
The `.catch` is chained onto the promise returned by `.then`, so it
catches both a rejection of `processEvent`'s promise and an exception
thrown by the `.then` handler itself:
* handler fulfilled and `ensureResolve` run 0 returns normally: nothing
  further happens;
* handler fulfilled but run 0 throws (a throwing completion callback):
  the `.then` promise rejects with that error, the `.catch` branch logs
  it and runs `ensureResolve` again — invoking the callback a second
  time; an exception from that second run rejects the chain promise;
* handler rejected: the `.then` handler is skipped, the `.catch` branch
  logs the handler's error and runs `ensureResolve` (run 0); an exception
  from it rejects the chain promise.
In every path `resolve()` runs inside a `finally` block before any
re-raise, so the returned promise always resolves (calling `resolve` on
an already-resolved promise does not change its state; the call itself is
still recorded in the action list). -/
def processNextEvent (handlerOutcome : Except String Unit)
    (callback : Option (Nat → Option String)) : ProcessNextEventRun :=
  match handlerOutcome with
  | Except.ok _ =>
    let r0 := ensureResolve (callback.map (fun b => b 0))
    match r0.thrown with
    | none =>
        { warns := []
          resolveActions := r0.actions
          promiseResolved := ResolveAction.resolveInvoked ∈ r0.actions
          promiseRejected := false
          chainRejection := none }
    | some e1 =>
        let r1 := ensureResolve (callback.map (fun b => b 1))
        { warns := [e1]
          resolveActions := r0.actions ++ r1.actions
          promiseResolved := ResolveAction.resolveInvoked ∈ r0.actions ++ r1.actions
          promiseRejected := false
          chainRejection := r1.thrown }
  | Except.error e0 =>
    let r0 := ensureResolve (callback.map (fun b => b 0))
    { warns := [e0]
      resolveActions := r0.actions
      promiseResolved := ResolveAction.resolveInvoked ∈ r0.actions
      promiseRejected := false
      chainRejection := r0.thrown }

/-- `await videoEventProcessor[(event as string)](callArgs)` in
`processEvent`, with the processor modelled as a partial map from names to
(possibly failing) operations: an unknown name means
`videoEventProcessor[event]` is `undefined`, and invoking it throws a
`TypeError`, which inside an async function becomes a rejection. -/
def processEvent (processor : VideoInterface → Option (Nat → Except String Unit))
    (c : Command) : Except String Unit :=
  match processor c.event with
  | none => Except.error ("TypeError: " ++ c.event.str ++ " is not a function")
  | some op => op c.callArgs

/-!
Helper definitions for the trace theorems.
-/

/-- The commands the handler has received from the drain loop, in
dispatch order. -/
def loopDispatched (s : SeqState) : List Command :=
  s.dispatched.filterMap (fun p => if p.2 = Origin.fromLoop then some p.1 else none)

/-- The commands passed to `enqueueForProcessing` by a label list, in
order. -/
def enqueuesOf (L : List Label) : List Command :=
  L.filterMap (fun l => match l with | Label.enqueue c => some c | _ => none)

/-- Labels of the normal path: no `processExclusively`, no `destroy`. -/
def Label.normal : Label → Prop
  | Label.exclusiveCall _ => False
  | Label.destroyCall => False
  | _ => True

instance (l : Label) : Decidable l.normal := by
  cases l <;> simp [Label.normal] <;> infer_instance

/-- Labels that are not `enqueueForProcessing` calls. -/
def Label.notEnqueue : Label → Prop
  | Label.enqueue _ => False
  | _ => True

instance (l : Label) : Decidable l.notEnqueue := by
  cases l <;> simp [Label.notEnqueue] <;> infer_instance

/-!
Basic lemmas about the transition functions.
-/

theorem run_append (s : SeqState) (L1 L2 : List Label) :
    run s (L1 ++ L2) = run (run s L1) L2 := by
  induction L1 generalizing s with
  | nil => rfl
  | cons l ls ih => simpa [run] using ih (step s l)

@[simp] theorem dispatchCall_eventsQueue (s : SeqState) (c : Command) (k : CallKind) :
    (dispatchCall s c k).eventsQueue = s.eventsQueue := rfl

@[simp] theorem dispatchCall_isProcessing (s : SeqState) (c : Command) (k : CallKind) :
    (dispatchCall s c k).isProcessing = s.isProcessing := rfl

@[simp] theorem dispatchCall_scheduledFrames (s : SeqState) (c : Command) (k : CallKind) :
    (dispatchCall s c k).scheduledFrames = s.scheduledFrames := rfl

@[simp] theorem dispatchCall_inflight (s : SeqState) (c : Command) (k : CallKind) :
    (dispatchCall s c k).inflight = s.inflight ++ [{ cmd := c, kind := k }] := rfl

@[simp] theorem dispatchCall_dispatched (s : SeqState) (c : Command) (k : CallKind) :
    (dispatchCall s c k).dispatched = s.dispatched ++ [(c, k.origin)] := rfl

@[simp] theorem dispatchCall_enqueued (s : SeqState) (c : Command) (k : CallKind) :
    (dispatchCall s c k).enqueued = s.enqueued := rfl

@[simp] theorem dispatchCall_resolvedExclusives (s : SeqState) (c : Command) (k : CallKind) :
    (dispatchCall s c k).resolvedExclusives = s.resolvedExclusives := rfl

@[simp] theorem dispatchCall_nextExclusiveId (s : SeqState) (c : Command) (k : CallKind) :
    (dispatchCall s c k).nextExclusiveId = s.nextExclusiveId := rfl

theorem loopDispatched_dispatchCall_loop (s : SeqState) (c : Command) :
    loopDispatched (dispatchCall s c CallKind.loop) = loopDispatched s ++ [c] := by
  simp [loopDispatched, dispatchCall, CallKind.origin]

theorem loopDispatched_dispatchCall_exclusive (s : SeqState) (c : Command) (e : Nat) :
    loopDispatched (dispatchCall s c (CallKind.exclusive e)) = loopDispatched s := by
  simp [loopDispatched, dispatchCall, CallKind.origin]

theorem settleCall_of_none {s : SeqState} {i : Nat} (ok : Bool)
    (h : s.inflight[i]? = none) : settleCall s i ok = s := by
  simp [settleCall, h]

theorem settleCall_eventsQueue (s : SeqState) (i : Nat) (ok : Bool) :
    (settleCall s i ok).eventsQueue = s.eventsQueue := by
  unfold settleCall
  cases h : s.inflight[i]? with
  | none => rfl
  | some call => cases hk : call.kind <;> cases ok <;> simp [hk]

theorem settleCall_isProcessing (s : SeqState) (i : Nat) (ok : Bool) :
    (settleCall s i ok).isProcessing = s.isProcessing := by
  unfold settleCall
  cases h : s.inflight[i]? with
  | none => rfl
  | some call => cases hk : call.kind <;> cases ok <;> simp [hk]

theorem settleCall_dispatched (s : SeqState) (i : Nat) (ok : Bool) :
    (settleCall s i ok).dispatched = s.dispatched := by
  unfold settleCall
  cases h : s.inflight[i]? with
  | none => rfl
  | some call => cases hk : call.kind <;> cases ok <;> simp [hk]

theorem settleCall_enqueued (s : SeqState) (i : Nat) (ok : Bool) :
    (settleCall s i ok).enqueued = s.enqueued := by
  unfold settleCall
  cases h : s.inflight[i]? with
  | none => rfl
  | some call => cases hk : call.kind <;> cases ok <;> simp [hk]

theorem settleCall_nextExclusiveId (s : SeqState) (i : Nat) (ok : Bool) :
    (settleCall s i ok).nextExclusiveId = s.nextExclusiveId := by
  unfold settleCall
  cases h : s.inflight[i]? with
  | none => rfl
  | some call => cases hk : call.kind <;> cases ok <;> simp [hk]

theorem loopDispatched_settleCall (s : SeqState) (i : Nat) (ok : Bool) :
    loopDispatched (settleCall s i ok) = loopDispatched s := by
  simp [loopDispatched, settleCall_dispatched]

theorem settleCall_inflight {s : SeqState} {i : Nat} {call : InflightCall} (ok : Bool)
    (h : s.inflight[i]? = some call) :
    (settleCall s i ok).inflight = s.inflight.eraseIdx i := by
  unfold settleCall
  rw [h]
  cases hk : call.kind <;> cases ok <;> simp [hk]

theorem settleCall_scheduledFrames_loop {s : SeqState} {i : Nat} {call : InflightCall}
    (ok : Bool) (h : s.inflight[i]? = some call) (hk : call.kind = CallKind.loop) :
    (settleCall s i ok).scheduledFrames = s.scheduledFrames ++ [s.nextFrameId] := by
  unfold settleCall
  rw [h]
  cases ok <;> simp [hk]

theorem settleCall_scheduledFrames_exclusive {s : SeqState} {i : Nat} {call : InflightCall}
    {e : Nat} (ok : Bool) (h : s.inflight[i]? = some call)
    (hk : call.kind = CallKind.exclusive e) :
    (settleCall s i ok).scheduledFrames = s.scheduledFrames := by
  unfold settleCall
  rw [h]
  cases ok <;> simp [hk]

theorem settleCall_resolved_loop {s : SeqState} {i : Nat} {call : InflightCall}
    (ok : Bool) (h : s.inflight[i]? = some call) (hk : call.kind = CallKind.loop) :
    (settleCall s i ok).resolvedExclusives = s.resolvedExclusives := by
  unfold settleCall
  rw [h]
  cases ok <;> simp [hk]

theorem settleCall_resolved_exclusive {s : SeqState} {i : Nat} {call : InflightCall}
    {e : Nat} (ok : Bool) (h : s.inflight[i]? = some call)
    (hk : call.kind = CallKind.exclusive e) :
    (settleCall s i ok).resolvedExclusives = s.resolvedExclusives ++ [e] := by
  unfold settleCall
  rw [h]
  cases ok <;> simp [hk]

theorem settleCall_log_ok {s : SeqState} {i : Nat} {call : InflightCall}
    (h : s.inflight[i]? = some call) :
    (settleCall s i true).log = s.log := by
  unfold settleCall
  rw [h]
  cases hk : call.kind <;> simp [hk]

theorem settleCall_log_err {s : SeqState} {i : Nat} {call : InflightCall}
    (h : s.inflight[i]? = some call) :
    (settleCall s i false).log =
      s.log ++ [LogEntry.warn ("error processing " ++ call.cmd.event.str)] := by
  unfold settleCall
  rw [h]
  cases hk : call.kind <;> simp [hk]

theorem conserve_enqueue (s : SeqState) (c : Command) :
    loopDispatched (enqueueForProcessing s c) ++ (enqueueForProcessing s c).eventsQueue =
      loopDispatched s ++ s.eventsQueue ++ [c] := by
  cases hp : s.isProcessing <;> cases hq : s.eventsQueue <;>
    simp [enqueueForProcessing, ensureProcessing, processLoop, hp, hq, loopDispatched,
      dispatchCall, CallKind.origin]

theorem conserve_tick (s : SeqState) (fid : Nat) :
    loopDispatched (fireAnimationFrame s fid) ++ (fireAnimationFrame s fid).eventsQueue =
      loopDispatched s ++ s.eventsQueue := by
  by_cases hf : fid ∈ s.scheduledFrames <;> cases hq : s.eventsQueue <;>
    simp [fireAnimationFrame, processLoop, hf, hq, loopDispatched, dispatchCall,
      CallKind.origin]

theorem conserve_settle (s : SeqState) (i : Nat) (ok : Bool) :
    loopDispatched (settleCall s i ok) ++ (settleCall s i ok).eventsQueue =
      loopDispatched s ++ s.eventsQueue := by
  rw [loopDispatched_settleCall, settleCall_eventsQueue]

@[simp] theorem enqueuesOf_nil : enqueuesOf [] = [] := rfl

@[simp] theorem enqueuesOf_cons (l : Label) (L : List Label) :
    enqueuesOf (l :: L) =
      (match l with | Label.enqueue c => [c] | _ => []) ++ enqueuesOf L := by
  cases l <;> simp [enqueuesOf]

/-- Conservation of the drain order on the normal path: the commands the
loop has dispatched followed by the commands still queued always equal the
old such list extended by the newly enqueued commands, as long as no
`processExclusively` or `destroy` call intervenes. -/
theorem fifo_conservation (L : List Label) : ∀ s : SeqState, (∀ l ∈ L, l.normal) →
    loopDispatched (run s L) ++ (run s L).eventsQueue =
      loopDispatched s ++ s.eventsQueue ++ enqueuesOf L := by
  induction L with
  | nil => intro s _; simp [run]
  | cons l ls ih =>
    intro s hL
    have hl : l.normal := hL l (by simp)
    have hls : ∀ x ∈ ls, x.normal := fun x hx => hL x (by simp [hx])
    show loopDispatched (run (step s l) ls) ++ (run (step s l) ls).eventsQueue = _
    rw [ih _ hls]
    cases l with
    | enqueue c => rw [show step s (Label.enqueue c) = enqueueForProcessing s c from rfl]
                   rw [conserve_enqueue]; simp
    | tick fid => rw [show step s (Label.tick fid) = fireAnimationFrame s fid from rfl]
                  rw [conserve_tick]; simp
    | settle i ok => rw [show step s (Label.settle i ok) = settleCall s i ok from rfl]
                     rw [conserve_settle]; simp
    | exclusiveCall c => exact absurd hl (by simp [Label.normal])
    | destroyCall => exact absurd hl (by simp [Label.normal])

/-- Invariant of the normal path (no `processExclusively`, no `destroy`):
at most one handler call or scheduled tick exists at a time, and when the
cycle flag is off there is neither. -/
def NormalInv (s : SeqState) : Prop :=
  s.inflight.length + s.scheduledFrames.length ≤ 1 ∧
    (s.isProcessing = false → s.inflight = [] ∧ s.scheduledFrames = [])

instance (s : SeqState) : Decidable (NormalInv s) := by
  unfold NormalInv; infer_instance

theorem normalInv_enqueue {s : SeqState} (c : Command) (h : NormalInv s) :
    NormalInv (enqueueForProcessing s c) := by
  obtain ⟨h1, h2⟩ := h
  by_cases hp : s.isProcessing = false
  · obtain ⟨hi, hs⟩ := h2 hp
    cases hq : s.eventsQueue <;>
      simp [NormalInv, enqueueForProcessing, ensureProcessing, processLoop, hp, hq, hi, hs]
  · rw [Bool.not_eq_false] at hp
    simp [NormalInv, enqueueForProcessing, ensureProcessing, hp, h1]

theorem normalInv_tick {s : SeqState} (fid : Nat) (h : NormalInv s) :
    NormalInv (fireAnimationFrame s fid) := by
  obtain ⟨h1, h2⟩ := h
  by_cases hf : fid ∈ s.scheduledFrames
  · have hp : s.isProcessing = true := by
      by_contra hc
      rw [Bool.not_eq_true] at hc
      obtain ⟨_, hs⟩ := h2 hc
      rw [hs] at hf
      exact absurd hf (List.not_mem_nil fid)
    have hlen : 0 < s.scheduledFrames.length := List.length_pos.2 (by
      intro hnil; rw [hnil] at hf; exact absurd hf (List.not_mem_nil fid))
    have hinf : s.inflight = [] := by
      have : s.inflight.length = 0 := by omega
      exact List.length_eq_zero.1 this
    have hslen : s.scheduledFrames.length = 1 := by omega
    obtain ⟨a, ha⟩ := List.length_eq_one.1 hslen
    have haf : a = fid := by
      rw [ha] at hf
      exact (by simpa using hf : fid = a).symm
    have hsf : s.scheduledFrames = [fid] := by rw [ha, haf]
    cases hq : s.eventsQueue <;>
      simp [NormalInv, fireAnimationFrame, processLoop, hf, hq, hp, hinf, hsf]
  · simpa [NormalInv, fireAnimationFrame, hf] using ⟨h1, h2⟩

theorem normalInv_settle {s : SeqState} (i : Nat) (ok : Bool) (h : NormalInv s) :
    NormalInv (settleCall s i ok) := by
  obtain ⟨h1, h2⟩ := h
  cases hc : s.inflight[i]? with
  | none => rw [settleCall_of_none ok hc]; exact ⟨h1, h2⟩
  | some call =>
    have hlt : i < s.inflight.length := by
      by_contra hge
      rw [List.getElem?_eq_none (Nat.le_of_not_lt hge)] at hc
      exact Option.noConfusion hc
    have hp : s.isProcessing = true := by
      by_contra hb
      rw [Bool.not_eq_true] at hb
      obtain ⟨hi, _⟩ := h2 hb
      rw [hi] at hlt
      exact absurd hlt (by simp)
    have hilen : s.inflight.length = 1 := by omega
    have hs0 : s.scheduledFrames = [] := by
      have : s.scheduledFrames.length = 0 := by omega
      exact List.length_eq_zero.1 this
    obtain ⟨a, ha⟩ := List.length_eq_one.1 hilen
    have hi0 : i = 0 := by omega
    have hac : a = call := by
      rw [ha, hi0] at hc
      simpa using hc
    have herase : s.inflight.eraseIdx i = [] := by rw [ha, hi0, hac]; rfl
    have hq := settleCall_eventsQueue s i ok
    have hpp := settleCall_isProcessing s i ok
    have hinf := settleCall_inflight ok hc
    cases hk : call.kind with
    | loop =>
        have hsf := settleCall_scheduledFrames_loop ok hc hk
        refine ⟨?_, ?_⟩
        · rw [hinf, herase, hsf, hs0]; simp
        · intro hfalse
          rw [hpp, hp] at hfalse
          exact Bool.noConfusion hfalse
    | exclusive e =>
        have hsf := settleCall_scheduledFrames_exclusive ok hc hk
        refine ⟨?_, ?_⟩
        · rw [hinf, herase, hsf, hs0]; simp
        · intro hfalse
          rw [hpp, hp] at hfalse
          exact Bool.noConfusion hfalse

theorem normalInv_run (L : List Label) : ∀ s : SeqState, NormalInv s →
    (∀ l ∈ L, l.normal) → NormalInv (run s L) := by
  induction L with
  | nil => intro s h _; exact h
  | cons l ls ih =>
    intro s h hL
    have hl : l.normal := hL l (by simp)
    have hls : ∀ x ∈ ls, x.normal := fun x hx => hL x (by simp [hx])
    refine ih (step s l) ?_ hls
    cases l with
    | enqueue c => exact normalInv_enqueue c h
    | tick fid => exact normalInv_tick fid h
    | settle i ok => exact normalInv_settle i ok h
    | exclusiveCall c => exact absurd hl (by simp [Label.normal])
    | destroyCall => exact absurd hl (by simp [Label.normal])

/-- A fully quiescent sequencer: nothing queued, nothing in flight,
nothing scheduled. -/
def Quiet (s : SeqState) : Prop :=
  s.eventsQueue = [] ∧ s.inflight = [] ∧ s.scheduledFrames = []

instance (s : SeqState) : Decidable (Quiet s) := by
  unfold Quiet; infer_instance

/-- Labels that neither enqueue nor request exclusive execution. -/
def Label.quiescent : Label → Prop
  | Label.enqueue _ => False
  | Label.exclusiveCall _ => False
  | _ => True

instance (l : Label) : Decidable l.quiescent := by
  cases l <;> simp [Label.quiescent] <;> infer_instance

theorem quiet_run (L : List Label) : ∀ s : SeqState, Quiet s →
    (∀ l ∈ L, l.quiescent) →
    Quiet (run s L) ∧ (run s L).dispatched = s.dispatched := by
  induction L with
  | nil => intro s h _; exact ⟨h, rfl⟩
  | cons l ls ih =>
    intro s h hL
    obtain ⟨hq, hi, hs⟩ := h
    have hl : l.quiescent := hL l (by simp)
    have hls : ∀ x ∈ ls, x.quiescent := fun x hx => hL x (by simp [hx])
    have hstep : Quiet (step s l) ∧ (step s l).dispatched = s.dispatched := by
      cases l with
      | enqueue c => exact absurd hl (by simp [Label.quiescent])
      | exclusiveCall c => exact absurd hl (by simp [Label.quiescent])
      | tick fid =>
          have : fid ∉ s.scheduledFrames := by rw [hs]; exact List.not_mem_nil fid
          simp [step, fireAnimationFrame, this, Quiet, hq, hi, hs]
      | settle i ok =>
          have hnone : s.inflight[i]? = none := by rw [hi]; simp
          rw [show step s (Label.settle i ok) = settleCall s i ok from rfl,
            settleCall_of_none ok hnone]
          exact ⟨⟨hq, hi, hs⟩, rfl⟩
      | destroyCall =>
          cases hc : s.currentAnimationFrame <;>
            simp [step, destroy, cancelCurrentAnimationFrame, hc, Quiet, hq, hi, hs]
    obtain ⟨h1, h2⟩ := ih (step s l) hstep.1 hls
    refine ⟨h1, ?_⟩
    show (run (step s l) ls).dispatched = s.dispatched
    rw [h2, hstep.2]

/-- The handler invocations recorded after state `s` by running `L`. -/
def newDispatches (s : SeqState) (L : List Label) : List (Command × Origin) :=
  ((run s L).dispatched).drop s.dispatched.length

/-- One-step source tracking: after any single step, every queued command
and every newly made drain-loop dispatch comes from the old queue or from
the enqueue performed by that step. -/
theorem step_sources (s : SeqState) (l : Label) :
    (∀ c ∈ (step s l).eventsQueue, c ∈ s.eventsQueue ∨ c ∈ enqueuesOf [l]) ∧
    (∃ t, (step s l).dispatched = s.dispatched ++ t ∧
       ∀ c, (c, Origin.fromLoop) ∈ t → c ∈ s.eventsQueue ∨ c ∈ enqueuesOf [l]) := by
  cases l with
  | enqueue c0 =>
      by_cases hp : s.isProcessing = true
      · refine ⟨?_, [], by simp [step, enqueueForProcessing, ensureProcessing, hp], by simp⟩
        intro c hc
        have hm : c ∈ s.eventsQueue ∨ c = c0 := by
          simpa [step, enqueueForProcessing, ensureProcessing, hp] using hc
        rcases hm with h | h
        · exact Or.inl h
        · right; simp [enqueuesOf, h]
      · rw [Bool.not_eq_true] at hp
        cases hq : s.eventsQueue with
        | nil =>
            refine ⟨?_, [(c0, Origin.fromLoop)], ?_, ?_⟩
            · intro c hc
              simp [step, enqueueForProcessing, ensureProcessing, processLoop, hp, hq] at hc
            · simp [step, enqueueForProcessing, ensureProcessing, processLoop, hp, hq,
                dispatchCall, CallKind.origin]
            · intro c hc
              right
              simp at hc
              simp [enqueuesOf, hc]
        | cons h0 tq =>
            refine ⟨?_, [(h0, Origin.fromLoop)], ?_, ?_⟩
            · intro c hc
              have hm : c ∈ tq ++ [c0] := by
                simpa [step, enqueueForProcessing, ensureProcessing, processLoop, hp, hq]
                  using hc
              rcases List.mem_append.1 hm with h | h
              · exact Or.inl (List.mem_cons_of_mem h0 h)
              · right; simpa [enqueuesOf] using h
            · simp [step, enqueueForProcessing, ensureProcessing, processLoop, hp, hq,
                dispatchCall, CallKind.origin]
            · intro c hc
              simp at hc
              left
              rw [hc]
              exact List.mem_cons_self h0 tq
  | tick fid =>
      by_cases hf : fid ∈ s.scheduledFrames
      · cases hq : s.eventsQueue with
        | nil =>
            refine ⟨?_, [], by simp [step, fireAnimationFrame, processLoop, hf, hq], by simp⟩
            intro c hc
            simp [step, fireAnimationFrame, processLoop, hf, hq] at hc
        | cons h0 tq =>
            refine ⟨?_, [(h0, Origin.fromLoop)], ?_, ?_⟩
            · intro c hc
              have hm : c ∈ tq := by
                simpa [step, fireAnimationFrame, processLoop, hf, hq] using hc
              exact Or.inl (List.mem_cons_of_mem h0 hm)
            · simp [step, fireAnimationFrame, processLoop, hf, hq, dispatchCall,
                CallKind.origin]
            · intro c hc
              simp at hc
              left
              rw [hc]
              exact List.mem_cons_self h0 tq
      · refine ⟨?_, [], by simp [step, fireAnimationFrame, hf], by simp⟩
        intro c hc
        exact Or.inl (by simpa [step, fireAnimationFrame, hf] using hc)
  | settle i ok =>
      refine ⟨?_, [], ?_, by simp⟩
      · intro c hc
        exact Or.inl (by simpa [step, settleCall_eventsQueue] using hc)
      · simp [step, settleCall_dispatched]
  | exclusiveCall c0 =>
      refine ⟨?_, [(c0, Origin.fromExclusive)], ?_, ?_⟩
      · intro c hc
        cases hcf : s.currentAnimationFrame <;>
          simp [step, processExclusively, cancelCurrentAnimationFrame, hcf,
            dispatchCall] at hc
      · cases hcf : s.currentAnimationFrame <;>
          simp [step, processExclusively, cancelCurrentAnimationFrame, hcf, dispatchCall,
            CallKind.origin]
      · intro c hc
        simp at hc
  | destroyCall =>
      refine ⟨?_, [], ?_, by simp⟩
      · intro c hc
        cases hcf : s.currentAnimationFrame <;>
          simp [step, destroy, cancelCurrentAnimationFrame, hcf] at hc
      · cases hcf : s.currentAnimationFrame <;>
          simp [step, destroy, cancelCurrentAnimationFrame, hcf]

/-- Run-level source tracking: every command queued or dispatched by the
drain loop during a run comes from the starting queue or from the run's
own enqueue calls. -/
theorem run_sources (L : List Label) : ∀ s : SeqState,
    (∀ c ∈ (run s L).eventsQueue, c ∈ s.eventsQueue ∨ c ∈ enqueuesOf L) ∧
    (∃ t, (run s L).dispatched = s.dispatched ++ t ∧
       ∀ c, (c, Origin.fromLoop) ∈ t → c ∈ s.eventsQueue ∨ c ∈ enqueuesOf L) := by
  induction L with
  | nil =>
      intro s
      exact ⟨fun c hc => Or.inl hc, [], by simp [run], by simp⟩
  | cons l ls ih =>
    intro s
    obtain ⟨hq1, t1, ht1, ht1m⟩ := step_sources s l
    obtain ⟨hq2, t2, ht2, ht2m⟩ := ih (step s l)
    have lift1 : ∀ c : Command, c ∈ enqueuesOf [l] → c ∈ enqueuesOf (l :: ls) := by
      intro c h
      simp only [enqueuesOf_cons] at h ⊢
      exact List.mem_append_left _ (by simpa using h)
    have lift2 : ∀ c : Command, c ∈ enqueuesOf ls → c ∈ enqueuesOf (l :: ls) := by
      intro c h
      simp only [enqueuesOf_cons]
      exact List.mem_append_right _ h
    have liftq : ∀ c : Command, c ∈ (step s l).eventsQueue →
        c ∈ s.eventsQueue ∨ c ∈ enqueuesOf (l :: ls) := by
      intro c h
      rcases hq1 c h with h' | h'
      · exact Or.inl h'
      · exact Or.inr (lift1 c h')
    constructor
    · intro c hc
      have hc2 : c ∈ (run (step s l) ls).eventsQueue := hc
      rcases hq2 c hc2 with h | h
      · exact liftq c h
      · exact Or.inr (lift2 c h)
    · refine ⟨t1 ++ t2, ?_, ?_⟩
      · show (run (step s l) ls).dispatched = _
        rw [ht2, ht1, List.append_assoc]
      · intro c hc
        rcases List.mem_append.1 hc with h | h
        · rcases ht1m c h with h' | h'
          · exact Or.inl h'
          · exact Or.inr (lift1 c h')
        · rcases ht2m c h with h' | h'
          · exact liftq c h'
          · exact Or.inr (lift2 c h')

/-- The `newDispatches` form of `run_sources`. -/
theorem newDispatches_spec (s : SeqState) (L : List Label) :
    (run s L).dispatched = s.dispatched ++ newDispatches s L ∧
    ∀ c, (c, Origin.fromLoop) ∈ newDispatches s L →
      c ∈ s.eventsQueue ∨ c ∈ enqueuesOf L := by
  obtain ⟨_, t, ht, htm⟩ := run_sources L s
  have : newDispatches s L = t := by
    unfold newDispatches
    rw [ht, List.drop_left]
  rw [this]
  exact ⟨ht, htm⟩

/-- The exclusive-promise id of an in-flight call, when it has one. -/
def exclId (call : InflightCall) : Option Nat :=
  match call.kind with | CallKind.exclusive e => some e | CallKind.loop => none

/-- The ids of the exclusive requests whose handler call is currently in
flight (each id names the promise returned by one `processExclusively`
call). -/
def exclIdsInflight (s : SeqState) : List Nat :=
  s.inflight.filterMap exclId

/-- Well-formedness of the exclusive-promise bookkeeping: a given
`processExclusively` promise is pending-or-resolved at most once, and all
issued ids are below the fresh-id counter. -/
def ExclWF (s : SeqState) : Prop :=
  (exclIdsInflight s ++ s.resolvedExclusives).Nodup ∧
    ∀ e ∈ exclIdsInflight s ++ s.resolvedExclusives, e < s.nextExclusiveId

instance (s : SeqState) : Decidable (ExclWF s) := by
  unfold ExclWF; infer_instance

theorem exclIds_dispatchCall (s : SeqState) (c : Command) (k : CallKind) :
    exclIdsInflight (dispatchCall s c k) =
      exclIdsInflight s ++
        (match k with | CallKind.exclusive e => [e] | CallKind.loop => []) := by
  cases k <;> simp [exclIdsInflight, exclId, dispatchCall]

theorem exclIds_processLoop (s : SeqState) :
    exclIdsInflight (processLoop s) = exclIdsInflight s := by
  cases hq : s.eventsQueue with
  | nil => simp [processLoop, hq, exclIdsInflight, exclId]
  | cons c rest => simp [processLoop, hq, exclIds_dispatchCall, exclIdsInflight, exclId]

theorem exclWF_enqueue {s : SeqState} (c : Command) (h : ExclWF s) :
    ExclWF (enqueueForProcessing s c) := by
  obtain ⟨h1, h2⟩ := h
  by_cases hp : s.isProcessing = true <;>
    [skip;rw [Bool.not_eq_true] at hp] <;>
    cases hq : s.eventsQueue <;>
    · constructor
      · simpa [ExclWF, enqueueForProcessing, ensureProcessing, processLoop, hp, hq,
          exclIdsInflight, exclId, dispatchCall] using h1
      · simpa [ExclWF, enqueueForProcessing, ensureProcessing, processLoop, hp, hq,
          exclIdsInflight, exclId, dispatchCall] using h2

theorem exclWF_tick {s : SeqState} (fid : Nat) (h : ExclWF s) :
    ExclWF (fireAnimationFrame s fid) := by
  obtain ⟨h1, h2⟩ := h
  by_cases hf : fid ∈ s.scheduledFrames <;>
    cases hq : s.eventsQueue <;>
    · constructor
      · simpa [ExclWF, fireAnimationFrame, processLoop, hf, hq, exclIdsInflight,
          exclId, dispatchCall] using h1
      · simpa [ExclWF, fireAnimationFrame, processLoop, hf, hq, exclIdsInflight,
          exclId, dispatchCall] using h2

theorem exclWF_destroy {s : SeqState} (h : ExclWF s) : ExclWF (destroy s) := by
  obtain ⟨h1, h2⟩ := h
  cases hc : s.currentAnimationFrame <;>
    · constructor
      · simpa [ExclWF, destroy, cancelCurrentAnimationFrame, hc, exclIdsInflight] using h1
      · simpa [ExclWF, destroy, cancelCurrentAnimationFrame, hc, exclIdsInflight] using h2

theorem exclWF_processExclusively {s : SeqState} (c : Command) (h : ExclWF s) :
    ExclWF (processExclusively s c) := by
  obtain ⟨h1, h2⟩ := h
  have hfresh : s.nextExclusiveId ∉ exclIdsInflight s ++ s.resolvedExclusives := by
    intro hmem
    exact absurd (h2 _ hmem) (by omega)
  have hids : exclIdsInflight (processExclusively s c) =
      exclIdsInflight s ++ [s.nextExclusiveId] := by
    cases hc : s.currentAnimationFrame <;>
      simp [processExclusively, cancelCurrentAnimationFrame, hc, exclIds_dispatchCall,
        exclIdsInflight, exclId]
  have hres : (processExclusively s c).resolvedExclusives = s.resolvedExclusives := by
    cases hc : s.currentAnimationFrame <;>
      simp [processExclusively, cancelCurrentAnimationFrame, hc, dispatchCall]
  have hnext : (processExclusively s c).nextExclusiveId = s.nextExclusiveId + 1 := by
    cases hc : s.currentAnimationFrame <;>
      simp [processExclusively, cancelCurrentAnimationFrame, hc, dispatchCall]
  constructor
  · rw [hids, hres]
    have hperm : List.Perm
        ((exclIdsInflight s ++ [s.nextExclusiveId]) ++ s.resolvedExclusives)
        (s.nextExclusiveId :: (exclIdsInflight s ++ s.resolvedExclusives)) := by
      rw [List.append_assoc]
      exact List.perm_middle
    rw [hperm.nodup_iff]
    exact List.nodup_cons.2 ⟨hfresh, h1⟩
  · rw [hids, hres, hnext]
    intro e hmem
    rcases List.mem_append.1 hmem with hm | hm
    · rcases List.mem_append.1 hm with hm2 | hm2
      · have := h2 e (List.mem_append_left _ hm2)
        omega
      · have : e = s.nextExclusiveId := by simpa using hm2
        omega
    · have := h2 e (List.mem_append_right _ hm)
      omega

theorem exclWF_settle {s : SeqState} (i : Nat) (ok : Bool) (h : ExclWF s) :
    ExclWF (settleCall s i ok) := by
  obtain ⟨h1, h2⟩ := h
  cases hc : s.inflight[i]? with
  | none => rw [settleCall_of_none ok hc]; exact ⟨h1, h2⟩
  | some call =>
    obtain ⟨hlt, hget⟩ := List.getElem?_eq_some.1 hc
    have hdec : s.inflight = s.inflight.take i ++ call :: s.inflight.drop (i + 1) := by
      conv_lhs => rw [← List.take_append_drop i s.inflight]
      rw [List.drop_eq_getElem_cons hlt, hget]
    have herase : s.inflight.eraseIdx i = s.inflight.take i ++ s.inflight.drop (i + 1) :=
      List.eraseIdx_eq_take_drop_succ s.inflight i
    have hinf := settleCall_inflight ok hc
    have hnext := settleCall_nextExclusiveId s i ok
    cases hk : call.kind with
    | loop =>
      have hres := settleCall_resolved_loop ok hc hk
      have hids : exclIdsInflight (settleCall s i ok) = exclIdsInflight s := by
        unfold exclIdsInflight
        rw [hinf, herase]
        conv_rhs => rw [hdec]
        simp [List.filterMap_append, List.filterMap_cons, exclId, hk]
      exact ⟨by rw [hids, hres]; exact h1, by rw [hids, hres, hnext]; exact h2⟩
    | exclusive e =>
      have hres := settleCall_resolved_exclusive ok hc hk
      have hids : exclIdsInflight (settleCall s i ok) =
          (s.inflight.take i).filterMap exclId ++
            (s.inflight.drop (i + 1)).filterMap exclId := by
        unfold exclIdsInflight
        rw [hinf, herase]
        simp [List.filterMap_append]
      have hidsold : exclIdsInflight s =
          (s.inflight.take i).filterMap exclId ++
            e :: (s.inflight.drop (i + 1)).filterMap exclId := by
        unfold exclIdsInflight
        conv_lhs => rw [hdec]
        simp [List.filterMap_append, List.filterMap_cons, exclId, hk]
      have hpermOld : List.Perm
          (((s.inflight.take i).filterMap exclId ++
             e :: (s.inflight.drop (i + 1)).filterMap exclId) ++ s.resolvedExclusives)
          (e :: ((s.inflight.take i).filterMap exclId ++
             ((s.inflight.drop (i + 1)).filterMap exclId ++ s.resolvedExclusives))) := by
        rw [List.append_assoc]
        exact List.perm_middle
      have hpermNew : List.Perm
          (((s.inflight.take i).filterMap exclId ++
             (s.inflight.drop (i + 1)).filterMap exclId) ++ (s.resolvedExclusives ++ [e]))
          (e :: ((s.inflight.take i).filterMap exclId ++
             ((s.inflight.drop (i + 1)).filterMap exclId ++ s.resolvedExclusives))) := by
        rw [← List.append_assoc]
        refine (List.perm_append_singleton e _).trans ?_
        rw [List.append_assoc]
      rw [hidsold] at h1 h2
      constructor
      · rw [hids, hres]
        exact hpermNew.nodup_iff.mpr (hpermOld.nodup_iff.mp h1)
      · rw [hids, hres, hnext]
        intro x hx
        have hx2 := hpermNew.mem_iff.mp hx
        have hx3 := hpermOld.mem_iff.mpr hx2
        exact h2 x hx3

theorem exclWF_run (L : List Label) : ∀ s : SeqState, ExclWF s → ExclWF (run s L) := by
  induction L with
  | nil => intro s h; exact h
  | cons l ls ih =>
    intro s h
    refine ih (step s l) ?_
    cases l with
    | enqueue c => exact exclWF_enqueue c h
    | tick fid => exact exclWF_tick fid h
    | settle i ok => exact exclWF_settle i ok h
    | exclusiveCall c => exact exclWF_processExclusively c h
    | destroyCall => exact exclWF_destroy h

/-!
Claim theorems.
-/

/-- C9: `destroy()` is idempotent: calling it any number of times in a
row, or calling it on an already-idle sequencer, throws no error (it is a
total state transformation) and leaves the state identical to a single
call, with the queue empty and the cycle flag inactive; on the freshly
created (idle) sequencer it is a no-op. -/
theorem c9_destroy_idempotent (s : SeqState) :
    destroy (destroy s) = destroy s ∧
    (destroy s).eventsQueue = [] ∧
    (destroy s).isProcessing = false ∧
    destroy initState = initState := by
  refine ⟨?_, ?_, ?_, by decide⟩
  · cases hc : s.currentAnimationFrame <;>
      simp [destroy, cancelCurrentAnimationFrame, hc, List.filter_filter]
  · cases hc : s.currentAnimationFrame <;>
      simp [destroy, cancelCurrentAnimationFrame, hc]
  · cases hc : s.currentAnimationFrame <;>
      simp [destroy, cancelCurrentAnimationFrame, hc]

/-- C10 (implicit): `processExclusively` never sets the cycle-active
flag: its synchronous prefix sets `isProcessing` to false, and the
settlement of any pending handler call (in particular the exclusive one)
leaves `isProcessing` unchanged, so nothing on the exclusive path ever
turns it back on.  Consequently an `enqueueForProcessing` made while the
exclusive command is still in flight finds `isProcessing` false, starts a
new drain cycle at once, and its first command is dispatched while the
exclusive handler call is still pending: after
`processExclusively(setSource)` followed immediately by
`enqueueForProcessing(seek)`, both calls are in flight and the flag is
back on only because of the enqueue. -/
theorem c10_exclusive_flag_stays_false :
    (∀ (s : SeqState) (c : Command), (processExclusively s c).isProcessing = false) ∧
    (∀ (s : SeqState) (i : Nat) (ok : Bool),
        (settleCall s i ok).isProcessing = s.isProcessing) ∧
    ((run initState
        [Label.exclusiveCall { event := VideoInterface.setSource, callArgs := 4 },
         Label.enqueue { event := VideoInterface.seek, callArgs := 5 }]).isProcessing
          = true ∧
     (run initState
        [Label.exclusiveCall { event := VideoInterface.setSource, callArgs := 4 },
         Label.enqueue { event := VideoInterface.seek, callArgs := 5 }]).inflight =
       [{ cmd := { event := VideoInterface.setSource, callArgs := 4 },
          kind := CallKind.exclusive 0 },
        { cmd := { event := VideoInterface.seek, callArgs := 5 },
          kind := CallKind.loop }]) := by
  refine ⟨?_, ?_, by decide⟩
  · intro s c
    cases hc : s.currentAnimationFrame <;>
      simp [processExclusively, cancelCurrentAnimationFrame, hc, dispatchCall]
  · intro s i ok
    exact settleCall_isProcessing s i ok

/-- C1 counterexample: the claim "at no point are two handler calls
simultaneously pending (including across an intervening
processExclusively call)" is false.  `processExclusively(pause)` leaves
its handler call pending with `isProcessing` reset to false; an
`enqueueForProcessing(play)` made before that call settles starts a new
drain cycle and dispatches `play` at once, so two handler calls are
pending simultaneously. -/
theorem c1_counterexample :
    (run initState
      [Label.exclusiveCall { event := VideoInterface.pause, callArgs := 0 },
       Label.enqueue { event := VideoInterface.play, callArgs := 1 }]).inflight.length
        = 2 ∧
    ¬ (run initState
      [Label.exclusiveCall { event := VideoInterface.pause, callArgs := 0 },
       Label.enqueue { event := VideoInterface.play, callArgs := 1 }]).inflight.length
        ≤ 1 := by
  decide

/-- C1 (amended): on the normal path — as long as no `processExclusively`
and no `destroy` call intervenes — no two handler invocations are ever
simultaneously pending: the next tick is scheduled only after the current
command's executor promise has settled, so from any state satisfying the
normal-path invariant (which the freshly created sequencer does), at most
one handler call is in flight at every point.  Across an intervening
`processExclusively` the property fails (see the counterexample). -/
theorem c1_amended_exclusivity (L : List Label) (s : SeqState)
    (hL : ∀ l ∈ L, l.normal) (hs : NormalInv s) :
    (run s L).inflight.length ≤ 1 := by
  have h := (normalInv_run L s hs hL).1
  omega

theorem c1_amended_exclusivity_witness :
    (∀ l ∈ [Label.enqueue { event := VideoInterface.play, callArgs := 2 },
            Label.settle 0 true, Label.tick 0], Label.normal l) ∧
    NormalInv initState ∧
    (run initState [Label.enqueue { event := VideoInterface.play, callArgs := 2 },
       Label.settle 0 true, Label.tick 0]).inflight.length ≤ 1 :=
  ⟨by decide, by decide,
   c1_amended_exclusivity
     [Label.enqueue { event := VideoInterface.play, callArgs := 2 },
      Label.settle 0 true, Label.tick 0]
     initState (by decide) (by decide)⟩

/-- C7 counterexample: the claim "after destroy() returns ... no
subsequent event (including a pending in-flight command settling, or a
later enqueueForProcessing call) causes another tick to be scheduled"
is false.  After `destroy()` on the fresh sequencer, a later
`enqueueForProcessing(play)` finds `isProcessing` false and dispatches
`play` at once (draining resumes), and when that handler call settles the
loop continuation runs `requestAnimationFrame` and a new tick is
scheduled. -/
theorem c7_counterexample :
    (run initState
      [Label.destroyCall,
       Label.enqueue { event := VideoInterface.play, callArgs := 0 }]).dispatched
        ≠ [] ∧
    (run initState
      [Label.destroyCall,
       Label.enqueue { event := VideoInterface.play, callArgs := 0 },
       Label.settle 0 true]).scheduledFrames ≠ [] := by
  decide

/-- C7 (amended): `destroy` empties the queue, sets the cycle state
inactive, and cancels the tick whose handle is currently recorded in
`currentAnimationFrame`; if at that point the sequencer is fully
quiescent (no handler call still in flight and no stale tick scheduled),
then as long as no `enqueueForProcessing` or `processExclusively` call
follows, no tick is ever scheduled and no handler call is ever made.  A
later `enqueueForProcessing` does restart draining, and an in-flight
handler call settling does schedule one further tick (see the
counterexample). -/
theorem c7_amended_destroy (s : SeqState) :
    ((destroy s).eventsQueue = [] ∧
     (destroy s).isProcessing = false ∧
     (∀ f, s.currentAnimationFrame = some f → f ∉ (destroy s).scheduledFrames)) ∧
    (∀ L : List Label, Quiet (destroy s) → (∀ l ∈ L, l.quiescent) →
       (run (destroy s) L).scheduledFrames = [] ∧
       (run (destroy s) L).dispatched = (destroy s).dispatched) := by
  constructor
  · refine ⟨?_, ?_, ?_⟩
    · cases hc : s.currentAnimationFrame <;>
        simp [destroy, cancelCurrentAnimationFrame, hc]
    · cases hc : s.currentAnimationFrame <;>
        simp [destroy, cancelCurrentAnimationFrame, hc]
    · intro f hf
      simp [destroy, cancelCurrentAnimationFrame, hf]
  · intro L hqt hL
    obtain ⟨h1, h2⟩ := quiet_run L (destroy s) hqt hL
    exact ⟨h1.2.2, h2⟩

theorem c7_amended_destroy_witness :
    ((run initState
        [Label.enqueue { event := VideoInterface.play, callArgs := 3 },
         Label.settle 0 true, Label.tick 0]).currentAnimationFrame = some 0) ∧
    Quiet (destroy (run initState
        [Label.enqueue { event := VideoInterface.play, callArgs := 3 },
         Label.settle 0 true, Label.tick 0])) ∧
    (∀ l ∈ [Label.tick 0, Label.destroyCall, Label.settle 0 true],
        Label.quiescent l) ∧
    (0 ∉ (destroy (run initState
        [Label.enqueue { event := VideoInterface.play, callArgs := 3 },
         Label.settle 0 true, Label.tick 0])).scheduledFrames) ∧
    (run (destroy (run initState
        [Label.enqueue { event := VideoInterface.play, callArgs := 3 },
         Label.settle 0 true, Label.tick 0]))
       [Label.tick 0, Label.destroyCall, Label.settle 0 true]).scheduledFrames = [] :=
  ⟨by decide, by decide, by decide,
   (c7_amended_destroy (run initState
      [Label.enqueue { event := VideoInterface.play, callArgs := 3 },
       Label.settle 0 true, Label.tick 0])).1.2.2 0 (by decide),
   ((c7_amended_destroy (run initState
      [Label.enqueue { event := VideoInterface.play, callArgs := 3 },
       Label.settle 0 true, Label.tick 0])).2
      [Label.tick 0, Label.destroyCall, Label.settle 0 true]
      (by decide) (by decide)).1⟩

/-- C8 counterexample: the claim that a throwing completion callback's
error "is caught and discarded by the executor (it does not escape as an
exception or an unhandled rejection)" is false.  `ensureResolve` uses
`try`/`finally` with no `catch`, so after the `finally` block calls
`resolve()` the callback's exception is re-raised.  When the handler call
has failed, the `.catch` branch is the one already running
`ensureResolve`, so the exception escapes the `.catch` handler and
rejects the unobserved chain promise — an unhandled rejection.  The same
end state is reached on the success path when the callback also throws on
its second invocation. -/
theorem c8_counterexample :
    (ensureResolve (some (some "boom"))).thrown = some "boom" ∧
    (processNextEvent (Except.error "fail")
        (some (fun _ => some "boom"))).chainRejection = some "boom" ∧
    (processNextEvent (Except.ok ())
        (some (fun _ => some "boom"))).chainRejection = some "boom" := by
  decide

/-- C8 (amended): for every exclusive request whose completion callback
throws when invoked, the thrown error never prevents resolution — every
`resolve()` call sits in a `finally` block, so the promise returned by
`processNextEvent` resolves and never rejects.  The error itself is not
discarded by `ensureResolve` (`try`/`finally` with no `catch` re-raises
it after the `finally` block); where it then goes depends on the branch
that was running.  If the handler call had failed, the `.catch` branch
was running: the error escapes it and rejects the unobserved chain
promise (a potential unhandled rejection).  If the handler call had
succeeded, the error rejects the `.then` promise and is caught by the
chained `.catch` branch, which logs a warning with that error and runs
`ensureResolve` — and therefore the completion callback — a second time;
only an error thrown by that second invocation escapes to the unobserved
chain promise. -/
theorem c8_amended_callback_throw :
    (∀ e : String,
        (ensureResolve (some (some e))).thrown = some e ∧
        ResolveAction.resolveInvoked ∈ (ensureResolve (some (some e))).actions) ∧
    (∀ (e0 e1 : String) (b : Nat → Option String), b 0 = some e1 →
        (processNextEvent (Except.error e0) (some b)).promiseResolved = true ∧
        (processNextEvent (Except.error e0) (some b)).promiseRejected = false ∧
        (processNextEvent (Except.error e0) (some b)).warns = [e0] ∧
        (processNextEvent (Except.error e0) (some b)).chainRejection = some e1) ∧
    (∀ (e1 : String) (b : Nat → Option String), b 0 = some e1 →
        (processNextEvent (Except.ok ()) (some b)).promiseResolved = true ∧
        (processNextEvent (Except.ok ()) (some b)).promiseRejected = false ∧
        (processNextEvent (Except.ok ()) (some b)).warns = [e1] ∧
        (processNextEvent (Except.ok ()) (some b)).resolveActions =
          [ResolveAction.callbackInvoked, ResolveAction.resolveInvoked,
           ResolveAction.callbackInvoked, ResolveAction.resolveInvoked] ∧
        (processNextEvent (Except.ok ()) (some b)).chainRejection = b 1) := by
  refine ⟨?_, ?_, ?_⟩
  · intro e
    simp [ensureResolve]
  · intro e0 e1 b hb
    simp [processNextEvent, ensureResolve, hb]
  · intro e1 b hb
    simp [processNextEvent, ensureResolve, hb]

theorem c8_amended_callback_throw_witness :
    ((fun _ : Nat => some "boom") 0 = some "boom") ∧
    (processNextEvent (Except.error "fail")
        (some (fun _ => some "boom"))).warns = ["fail"] ∧
    (processNextEvent (Except.ok ())
        (some (fun _ => some "boom"))).warns = ["boom"] :=
  ⟨rfl,
   (c8_amended_callback_throw.2.1 "fail" "boom" (fun _ => some "boom") rfl).2.2.1,
   (c8_amended_callback_throw.2.2 "boom" (fun _ => some "boom") rfl).2.2.1⟩

/-- C2: FIFO order.  For every sequence of `enqueueForProcessing` calls
performed with no intervening `processExclusively` or `destroy` (starting
from any state with an empty backlog), the commands the handler receives
from the drain loop, followed by the commands still waiting in the queue,
are exactly the enqueued commands in submission order; in particular the
newly dispatched commands form a prefix of the enqueued sequence, i.e.
the handler receives them in exactly the order they were enqueued
(enqueue appends at the tail, the drain step removes from the head). -/
theorem c2_fifo_order (s : SeqState) (L : List Label)
    (hL : ∀ l ∈ L, l.normal) (hq : s.eventsQueue = []) :
    loopDispatched (run s L) ++ (run s L).eventsQueue =
      loopDispatched s ++ enqueuesOf L ∧
    ∃ d, loopDispatched (run s L) = loopDispatched s ++ d ∧ d <+: enqueuesOf L := by
  have hcons := fifo_conservation L s hL
  rw [hq] at hcons
  simp only [List.append_nil] at hcons
  obtain ⟨hd, _⟩ := newDispatches_spec s L
  have hLD : loopDispatched (run s L) =
      loopDispatched s ++ (newDispatches s L).filterMap
        (fun p => if p.2 = Origin.fromLoop then some p.1 else none) := by
    unfold loopDispatched
    rw [hd, List.filterMap_append]
  refine ⟨hcons, _, hLD, ⟨(run s L).eventsQueue, ?_⟩⟩
  have h2 := hcons
  rw [hLD, List.append_assoc] at h2
  exact List.append_cancel_left h2

theorem c2_fifo_order_witness :
    (∀ l ∈ [Label.enqueue { event := VideoInterface.controlMedia, callArgs := 6 },
            Label.enqueue { event := VideoInterface.rewind, callArgs := 7 },
            Label.settle 0 true, Label.tick 0, Label.settle 0 true, Label.tick 1],
        Label.normal l) ∧
    initState.eventsQueue = [] ∧
    loopDispatched (run initState
        [Label.enqueue { event := VideoInterface.controlMedia, callArgs := 6 },
         Label.enqueue { event := VideoInterface.rewind, callArgs := 7 },
         Label.settle 0 true, Label.tick 0, Label.settle 0 true, Label.tick 1]) ++
      (run initState
        [Label.enqueue { event := VideoInterface.controlMedia, callArgs := 6 },
         Label.enqueue { event := VideoInterface.rewind, callArgs := 7 },
         Label.settle 0 true, Label.tick 0, Label.settle 0 true, Label.tick 1]).eventsQueue =
      loopDispatched initState ++ enqueuesOf
        [Label.enqueue { event := VideoInterface.controlMedia, callArgs := 6 },
         Label.enqueue { event := VideoInterface.rewind, callArgs := 7 },
         Label.settle 0 true, Label.tick 0, Label.settle 0 true, Label.tick 1] :=
  ⟨by decide, rfl,
   (c2_fifo_order initState
     [Label.enqueue { event := VideoInterface.controlMedia, callArgs := 6 },
      Label.enqueue { event := VideoInterface.rewind, callArgs := 7 },
      Label.settle 0 true, Label.tick 0, Label.settle 0 true, Label.tick 1]
     (by decide) rfl).1⟩

/-- C3: preemption discards the backlog.  `processExclusively(X)`
synchronously replaces the queue with an empty one, cancels the scheduled
tick recorded in `currentAnimationFrame`, and resets the cycle flag, and
only then (still within the same synchronous prefix) makes X's handler
call, which is therefore the next dispatch the handler receives; and in
any continuation of the run, every command the drain loop subsequently
dispatches is one that was enqueued after the preemption, so none of the
discarded, not-yet-executed commands is ever dispatched unless
re-enqueued afterward. -/
theorem c3_preemption_discards_backlog (s : SeqState) (c : Command) :
    (processExclusively s c).eventsQueue = [] ∧
    (processExclusively s c).isProcessing = false ∧
    (∀ f, s.currentAnimationFrame = some f →
        f ∉ (processExclusively s c).scheduledFrames) ∧
    (processExclusively s c).dispatched = s.dispatched ++ [(c, Origin.fromExclusive)] ∧
    (∀ (L : List Label) (x : Command),
        (x, Origin.fromLoop) ∈ newDispatches (processExclusively s c) L →
          x ∈ enqueuesOf L) := by
  have hq0 : (processExclusively s c).eventsQueue = [] := by
    cases hc : s.currentAnimationFrame <;>
      simp [processExclusively, cancelCurrentAnimationFrame, hc, dispatchCall]
  refine ⟨hq0, ?_, ?_, ?_, ?_⟩
  · cases hc : s.currentAnimationFrame <;>
      simp [processExclusively, cancelCurrentAnimationFrame, hc, dispatchCall]
  · intro f hf
    simp [processExclusively, cancelCurrentAnimationFrame, hf, dispatchCall,
      List.mem_filter]
  · cases hc : s.currentAnimationFrame <;>
      simp [processExclusively, cancelCurrentAnimationFrame, hc, dispatchCall,
        CallKind.origin]
  · intro L x hx
    rcases (newDispatches_spec (processExclusively s c) L).2 x hx with h | h
    · rw [hq0] at h
      exact absurd h (List.not_mem_nil x)
    · exact h

theorem c3_preemption_witness :
    (run initState [Label.enqueue { event := VideoInterface.playMedia, callArgs := 8 },
        Label.settle 0 true]).currentAnimationFrame = some 0 ∧
    0 ∉ (processExclusively
        (run initState [Label.enqueue { event := VideoInterface.playMedia, callArgs := 8 },
           Label.settle 0 true])
        { event := VideoInterface.setTrack, callArgs := 9 }).scheduledFrames ∧
    ({ event := VideoInterface.setScale, callArgs := 10 : Command }, Origin.fromLoop) ∈
      newDispatches
        (processExclusively
          (run initState [Label.enqueue { event := VideoInterface.playMedia, callArgs := 8 },
             Label.settle 0 true])
          { event := VideoInterface.setTrack, callArgs := 9 })
        [Label.enqueue { event := VideoInterface.setScale, callArgs := 10 }] ∧
    { event := VideoInterface.setScale, callArgs := 10 : Command } ∈
      enqueuesOf [Label.enqueue { event := VideoInterface.setScale, callArgs := 10 }] :=
  ⟨by decide,
   (c3_preemption_discards_backlog
     (run initState [Label.enqueue { event := VideoInterface.playMedia, callArgs := 8 },
        Label.settle 0 true])
     { event := VideoInterface.setTrack, callArgs := 9 }).2.2.1 0 (by decide),
   by decide,
   (c3_preemption_discards_backlog
     (run initState [Label.enqueue { event := VideoInterface.playMedia, callArgs := 8 },
        Label.settle 0 true])
     { event := VideoInterface.setTrack, callArgs := 9 }).2.2.2.2
     [Label.enqueue { event := VideoInterface.setScale, callArgs := 10 }]
     { event := VideoInterface.setScale, callArgs := 10 } (by decide)⟩

theorem empty_queue_no_loop_dispatch (L : List Label) : ∀ s : SeqState,
    s.eventsQueue = [] → (∀ l ∈ L, Label.notEnqueue l) →
    (run s L).eventsQueue = [] ∧ loopDispatched (run s L) = loopDispatched s := by
  induction L with
  | nil => intro s hq _; exact ⟨hq, rfl⟩
  | cons l ls ih =>
    intro s hq hL
    have hl := hL l (by simp)
    have hls : ∀ x ∈ ls, Label.notEnqueue x := fun x hx => hL x (by simp [hx])
    have hstep : (step s l).eventsQueue = [] ∧
        loopDispatched (step s l) = loopDispatched s := by
      cases l with
      | enqueue c => exact absurd hl (by simp [Label.notEnqueue])
      | tick fid =>
          by_cases hf : fid ∈ s.scheduledFrames <;>
            simp [step, fireAnimationFrame, hf, processLoop, hq, loopDispatched]
      | settle i ok =>
          constructor
          · show (settleCall s i ok).eventsQueue = []
            rw [settleCall_eventsQueue]
            exact hq
          · exact loopDispatched_settleCall s i ok
      | exclusiveCall c =>
          constructor
          · cases hc : s.currentAnimationFrame <;>
              simp [step, processExclusively, cancelCurrentAnimationFrame, hc,
                dispatchCall]
          · cases hc : s.currentAnimationFrame <;>
              simp [step, processExclusively, cancelCurrentAnimationFrame, hc,
                dispatchCall, loopDispatched, CallKind.origin]
      | destroyCall =>
          cases hc : s.currentAnimationFrame <;>
            simp [step, destroy, cancelCurrentAnimationFrame, hc, loopDispatched]
    obtain ⟨h1, h2⟩ := ih (step s l) hstep.1 hls
    exact ⟨h1, h2.trans hstep.2⟩

/-- C6: the drain step.  When the queue is empty, `processLoop` only sets
the cycle flag inactive — it changes nothing else, dispatches nothing and
schedules no tick — and from that terminal state no drain-loop dispatch
ever occurs again until a new enqueue: as long as no
`enqueueForProcessing` runs, the queue stays empty and the drain loop
makes no further handler call.  When the queue is non-empty,
`processLoop` removes exactly the head command, dispatches it (one
in-flight handler call, recorded with origin `fromLoop`), leaves the flag
and the scheduled ticks alone; and when that call settles — regardless of
the outcome `ok` — the continuation schedules the next tick. -/
theorem c6_drain_step :
    (∀ s : SeqState, s.eventsQueue = [] →
        processLoop s = { s with isProcessing := false }) ∧
    (∀ (s : SeqState) (c : Command) (rest : List Command),
        s.eventsQueue = c :: rest →
        (processLoop s).eventsQueue = rest ∧
        (processLoop s).dispatched = s.dispatched ++ [(c, Origin.fromLoop)] ∧
        (processLoop s).inflight = s.inflight ++ [{ cmd := c, kind := CallKind.loop }] ∧
        (processLoop s).isProcessing = s.isProcessing ∧
        (processLoop s).scheduledFrames = s.scheduledFrames) ∧
    (∀ (s : SeqState) (i : Nat) (call : InflightCall) (ok : Bool),
        s.inflight[i]? = some call → call.kind = CallKind.loop →
        (settleCall s i ok).scheduledFrames = s.scheduledFrames ++ [s.nextFrameId]) ∧
    (∀ (L : List Label) (s : SeqState), s.eventsQueue = [] →
        (∀ l ∈ L, Label.notEnqueue l) →
        (run s L).eventsQueue = [] ∧ loopDispatched (run s L) = loopDispatched s) := by
  refine ⟨?_, ?_, ?_, ?_⟩
  · intro s hq
    simp [processLoop, hq]
  · intro s c rest hq
    refine ⟨?_, ?_, ?_, ?_, ?_⟩ <;> simp [processLoop, hq, dispatchCall, CallKind.origin]
  · intro s i call ok hc hk
    exact settleCall_scheduledFrames_loop ok hc hk
  · intro L s hq hL
    exact empty_queue_no_loop_dispatch L s hq hL

theorem c6_drain_step_witness :
    (run initState [Label.enqueue { event := VideoInterface.onEvent, callArgs := 11 },
        Label.settle 0 true]).eventsQueue = [] ∧
    processLoop (run initState
        [Label.enqueue { event := VideoInterface.onEvent, callArgs := 11 },
         Label.settle 0 true]) =
      { (run initState [Label.enqueue { event := VideoInterface.onEvent, callArgs := 11 },
          Label.settle 0 true]) with isProcessing := false } ∧
    (run initState [Label.enqueue { event := VideoInterface.previous, callArgs := 12 },
        Label.enqueue { event := VideoInterface.next, callArgs := 13 }]).inflight[0]? =
      some { cmd := { event := VideoInterface.previous, callArgs := 12 },
             kind := CallKind.loop } ∧
    (settleCall (run initState
        [Label.enqueue { event := VideoInterface.previous, callArgs := 12 },
         Label.enqueue { event := VideoInterface.next, callArgs := 13 }]) 0
        false).scheduledFrames =
      (run initState [Label.enqueue { event := VideoInterface.previous, callArgs := 12 },
         Label.enqueue { event := VideoInterface.next, callArgs := 13 }]).scheduledFrames
        ++ [(run initState
              [Label.enqueue { event := VideoInterface.previous, callArgs := 12 },
               Label.enqueue { event := VideoInterface.next, callArgs := 13 }]).nextFrameId]
      ∧
    (∀ l ∈ [Label.settle 0 false, Label.tick 5, Label.destroyCall],
        Label.notEnqueue l) ∧
    (run (run initState [Label.enqueue { event := VideoInterface.onEvent, callArgs := 11 },
          Label.settle 0 true])
        [Label.settle 0 false, Label.tick 5, Label.destroyCall]).eventsQueue = [] :=
  ⟨by decide,
   (c6_drain_step.1 (run initState
      [Label.enqueue { event := VideoInterface.onEvent, callArgs := 11 },
       Label.settle 0 true]) (by decide)),
   by decide,
   (c6_drain_step.2.2.1 (run initState
      [Label.enqueue { event := VideoInterface.previous, callArgs := 12 },
       Label.enqueue { event := VideoInterface.next, callArgs := 13 }]) 0
      { cmd := { event := VideoInterface.previous, callArgs := 12 },
        kind := CallKind.loop } false (by decide) rfl),
   by decide,
   (c6_drain_step.2.2.2
      [Label.settle 0 false, Label.tick 5, Label.destroyCall]
      (run initState [Label.enqueue { event := VideoInterface.onEvent, callArgs := 11 },
         Label.settle 0 true]) (by decide) (by decide)).1⟩

/-- C5: failure isolation.  A command whose name matches no handler
operation makes `processEvent` fail with the `TypeError` of invoking
`undefined` (never a success); any failing handler call is caught inside
the executor: the settlement logs a warning naming the command, the
promise `processNextEvent` returned still resolves and never rejects (no
rejection or exception leaves the drain step or a public entry point);
and in the transition system, after a pending drain-loop call settles
with an error, the warning naming the command is logged, the tick the
continuation scheduled fires, and the next queued command is dispatched
on it. -/
theorem c5_failure_swallowed :
    (∀ (proc : VideoInterface → Option (Nat → Except String Unit)) (c : Command),
        proc c.event = none →
        processEvent proc c =
          Except.error ("TypeError: " ++ c.event.str ++ " is not a function")) ∧
    (∀ (e : String) (cb : Option (Nat → Option String)),
        (processNextEvent (Except.error e) cb).warns = [e] ∧
        (processNextEvent (Except.error e) cb).promiseResolved = true ∧
        (processNextEvent (Except.error e) cb).promiseRejected = false) ∧
    (∀ (s : SeqState) (i : Nat) (call : InflightCall) (c2 : Command)
        (rest : List Command),
        s.inflight[i]? = some call → call.kind = CallKind.loop →
        s.eventsQueue = c2 :: rest →
        (run s [Label.settle i false, Label.tick s.nextFrameId]).log =
          s.log ++ [LogEntry.warn ("error processing " ++ call.cmd.event.str),
                    LogEntry.info c2.event.str] ∧
        (run s [Label.settle i false, Label.tick s.nextFrameId]).dispatched =
          s.dispatched ++ [(c2, Origin.fromLoop)] ∧
        (run s [Label.settle i false, Label.tick s.nextFrameId]).eventsQueue = rest) := by
  refine ⟨?_, ?_, ?_⟩
  · intro proc c hnone
    simp [processEvent, hnone]
  · intro e cb
    cases cb <;> simp [processNextEvent, ensureResolve]
  · intro s i call c2 rest hc hk hq
    have hrun : run s [Label.settle i false, Label.tick s.nextFrameId] =
        fireAnimationFrame (settleCall s i false) s.nextFrameId := rfl
    have hsched := settleCall_scheduledFrames_loop false hc hk
    have hmem : s.nextFrameId ∈ (settleCall s i false).scheduledFrames := by
      rw [hsched]; simp
    have hq1 : (settleCall s i false).eventsQueue = c2 :: rest := by
      rw [settleCall_eventsQueue, hq]
    have hlog1 := settleCall_log_err hc
    have hd1 := settleCall_dispatched s i false
    rw [hrun]
    refine ⟨?_, ?_, ?_⟩
    · show (fireAnimationFrame (settleCall s i false) s.nextFrameId).log = _
      simp [fireAnimationFrame, hmem, processLoop, hq1, dispatchCall, hlog1]
    · show (fireAnimationFrame (settleCall s i false) s.nextFrameId).dispatched = _
      simp [fireAnimationFrame, hmem, processLoop, hq1, dispatchCall, hd1,
        CallKind.origin]
    · show (fireAnimationFrame (settleCall s i false) s.nextFrameId).eventsQueue = _
      simp [fireAnimationFrame, hmem, processLoop, hq1, dispatchCall]

theorem c5_failure_swallowed_witness :
    ((fun _ : VideoInterface => (none : Option (Nat → Except String Unit)))
        VideoInterface.applyCssShadow = none) ∧
    processEvent (fun _ => none)
        { event := VideoInterface.applyCssShadow, callArgs := 14 } =
      Except.error ("TypeError: " ++ VideoInterface.applyCssShadow.str ++
        " is not a function") ∧
    (run (run initState
        [Label.enqueue { event := VideoInterface.playMedia, callArgs := 15 },
         Label.enqueue { event := VideoInterface.seek, callArgs := 16 }])
       [Label.settle 0 false,
        Label.tick (run initState
          [Label.enqueue { event := VideoInterface.playMedia, callArgs := 15 },
           Label.enqueue { event := VideoInterface.seek, callArgs := 16 }]).nextFrameId]).dispatched
      = (run initState
          [Label.enqueue { event := VideoInterface.playMedia, callArgs := 15 },
           Label.enqueue { event := VideoInterface.seek, callArgs := 16 }]).dispatched ++
        [({ event := VideoInterface.seek, callArgs := 16 }, Origin.fromLoop)] :=
  ⟨rfl,
   c5_failure_swallowed.1 (fun _ => none)
     { event := VideoInterface.applyCssShadow, callArgs := 14 } rfl,
   (c5_failure_swallowed.2.2
     (run initState
       [Label.enqueue { event := VideoInterface.playMedia, callArgs := 15 },
        Label.enqueue { event := VideoInterface.seek, callArgs := 16 }])
     0
     { cmd := { event := VideoInterface.playMedia, callArgs := 15 },
       kind := CallKind.loop }
     { event := VideoInterface.seek, callArgs := 16 } []
     (by decide) rfl (by decide)).2.1⟩

/-- C4: resolve-always, exactly once.  For every `processExclusively`
call made in a well-formed state, the promise it returns is not yet
resolved when the call returns (its id is fresh), and over any
continuation of the run it is resolved at most once; the resolution
happens exactly at the settlement of the exclusive handler call — whether
that settlement is a fulfilment or a rejection (`ok` arbitrary) — at
which point the resolution count becomes exactly one (never skipped,
never doubled).  Within that settlement, `ensureResolve` invokes the
completion callback first and the `resolve()` of the executor promise
second, and the executor promise resolves for every handler outcome and
every callback behaviour, including a callback that throws. -/
theorem c4_exclusive_resolves_once :
    (∀ (s : SeqState) (c : Command), ExclWF s →
        (processExclusively s c).resolvedExclusives.count s.nextExclusiveId = 0 ∧
        ∀ L : List Label,
          (run (processExclusively s c) L).resolvedExclusives.count s.nextExclusiveId
            ≤ 1) ∧
    (∀ (s : SeqState) (i : Nat) (call : InflightCall) (e : Nat) (ok : Bool),
        s.inflight[i]? = some call → call.kind = CallKind.exclusive e →
        (settleCall s i ok).resolvedExclusives = s.resolvedExclusives ++ [e] ∧
        (ExclWF s → (settleCall s i ok).resolvedExclusives.count e = 1)) ∧
    (∀ cbThrow : Option String,
        (ensureResolve (some cbThrow)).actions =
          [ResolveAction.callbackInvoked, ResolveAction.resolveInvoked]) ∧
    (∀ (ho : Except String Unit) (cb : Option (Nat → Option String)),
        (processNextEvent ho cb).promiseResolved = true) := by
  refine ⟨?_, ?_, ?_, ?_⟩
  · intro s c hwf
    have hres : (processExclusively s c).resolvedExclusives = s.resolvedExclusives := by
      cases hc : s.currentAnimationFrame <;>
        simp [processExclusively, cancelCurrentAnimationFrame, hc, dispatchCall]
    constructor
    · rw [hres]
      refine List.count_eq_zero.2 ?_
      intro hmem
      exact absurd (hwf.2 _ (List.mem_append_right _ hmem)) (by omega)
    · intro L
      have hwf2 : ExclWF (run (processExclusively s c) L) :=
        exclWF_run L _ (exclWF_processExclusively c hwf)
      have hnd : (run (processExclusively s c) L).resolvedExclusives.Nodup :=
        (List.sublist_append_right _ _).nodup hwf2.1
      exact List.nodup_iff_count_le_one.1 hnd _
  · intro s i call e ok hc hk
    have hres := settleCall_resolved_exclusive ok hc hk
    refine ⟨hres, ?_⟩
    intro hwf
    have hmemids : e ∈ exclIdsInflight s := by
      obtain ⟨hlt, hget⟩ := List.getElem?_eq_some.1 hc
      have hcall : call ∈ s.inflight := hget ▸ List.getElem_mem hlt
      exact List.mem_filterMap.2 ⟨call, hcall, by simp [exclId, hk]⟩
    have hnotres : e ∉ s.resolvedExclusives :=
      fun hmem => (List.nodup_append.1 hwf.1).2.2 hmemids hmem
    rw [hres, List.count_append, List.count_eq_zero.2 hnotres]
    simp
  · intro cbThrow
    simp [ensureResolve]
  · intro ho cb
    cases ho with
    | ok u =>
        cases cb with
        | none => simp [processNextEvent, ensureResolve]
        | some b => cases hb : b 0 <;> simp [processNextEvent, ensureResolve, hb]
    | error e =>
        cases cb <;> simp [processNextEvent, ensureResolve]

theorem c4_exclusive_resolves_once_witness :
    ExclWF initState ∧
    (processExclusively initState
        { event := VideoInterface.updateMediaState, callArgs := 17 }).resolvedExclusives.count
      initState.nextExclusiveId = 0 ∧
    (run (processExclusively initState
        { event := VideoInterface.updateMediaState, callArgs := 17 })
       [Label.settle 0 true]).resolvedExclusives.count initState.nextExclusiveId ≤ 1 ∧
    (processExclusively initState
        { event := VideoInterface.updateMediaState, callArgs := 17 }).inflight[0]? =
      some { cmd := { event := VideoInterface.updateMediaState, callArgs := 17 },
             kind := CallKind.exclusive 0 } ∧
    ExclWF (processExclusively initState
        { event := VideoInterface.updateMediaState, callArgs := 17 }) ∧
    (settleCall (processExclusively initState
        { event := VideoInterface.updateMediaState, callArgs := 17 }) 0
        true).resolvedExclusives.count 0 = 1 :=
  ⟨by decide,
   (c4_exclusive_resolves_once.1 initState
     { event := VideoInterface.updateMediaState, callArgs := 17 } (by decide)).1,
   (c4_exclusive_resolves_once.1 initState
     { event := VideoInterface.updateMediaState, callArgs := 17 } (by decide)).2
     [Label.settle 0 true],
   by decide,
   by decide,
   (c4_exclusive_resolves_once.2.1
     (processExclusively initState
       { event := VideoInterface.updateMediaState, callArgs := 17 }) 0
     { cmd := { event := VideoInterface.updateMediaState, callArgs := 17 },
       kind := CallKind.exclusive 0 } 0 true (by decide) rfl).2 (by decide)⟩
